import Mathlib

/-!
# Verification of `dod_spending.py`

Shallow embedding of the DoD spending PDF-search program and proofs of the
specification's claims about it.  The embedding follows the source closely:

* `RateLimiter.wait` (source lines 45–65) becomes `waitStep`: a state
  transition on rational-valued timestamp windows, parameterised by the wall
  clock reading taken *before* the lock (`c`) and the time the lock is
  acquired (`l`), since the gap between those two reads is observable in the
  source.  Fallible indexing (`global_timestamps[0]` on a possibly empty
  list) is modelled with `Option`.
* `PDFSearcher._process_url` / `_check_direct_pdf` / `_scrape_page_for_pdfs`
  (lines 105–152) become state transitions on a `CrawlState` that records
  the visited cache, the collected PDF links, and event logs of probe and
  scrape invocations.  Network responses are supplied by a `CrawlEnv` oracle.
* `FileHandler.save_results` (lines 154–172) becomes `saveResultsRows`,
  producing the list of CSV rows.
* `SearchApplication._get_queries` (lines 201–212) becomes `getQueries`,
  with `sys.exit(1)` modelled as `Except.error 1`.

Library functions of `urllib.parse` (`urljoin`, `urlparse`) are modelled for
the URL shapes exercised here; each model's doc comment states its scope.
-/

namespace DodSpend

/-- `listPrefixOf pat l` is true when `pat` is a prefix of `l`. -/
def listPrefixOf : List Char → List Char → Bool
  | [], _ => true
  | _ :: _, [] => false
  | a :: as, b :: bs => a = b && listPrefixOf as bs

/-- `listInfixOf pat l` is true when `pat` occurs contiguously inside `l`. -/
def listInfixOf (pat : List Char) : List Char → Bool
  | [] => pat.isEmpty
  | b :: bs => listPrefixOf pat (b :: bs) || listInfixOf pat bs

/-- Model of Python's `needle in haystack` substring test on strings
(used by line 129, `"application/pdf" in content_type`). -/
def strContains (hay pat : String) : Bool :=
  listInfixOf pat.toList hay.toList

/-- Model of Python's `s.endswith(pat)` (used by lines 114 and 145). -/
def strEndsWith (s pat : String) : Bool :=
  listPrefixOf pat.toList.reverse s.toList.reverse

/-- `s` begins with `pat` (used to model `urljoin`'s absolute-path case). -/
def strStartsWith (s pat : String) : Bool :=
  listPrefixOf pat.toList s.toList

/-- Split a character list at the first occurrence of `"://"`.
Returns the part before the separator (the scheme) and the part after it. -/
def splitScheme : List Char → Option (List Char × List Char)
  | [] => none
  | ':' :: '/' :: '/' :: rest => some ([], rest)
  | c :: rest => (splitScheme rest).map (fun p => (c :: p.1, p.2))

/-- Characters that terminate the authority (host) component of a URL. -/
def isHostEnd (c : Char) : Bool :=
  c = '/' || c = '?' || c = '#'

/-- Model of `urllib.parse.urlparse(url).netloc` for absolute URLs:
the authority component between `"://"` and the first `/`, `?` or `#`.
For a URL without a scheme the model returns `""`, as `urlparse` does. -/
def netloc (url : String) : String :=
  match splitScheme url.toList with
  | none => ""
  | some p => (p.2.takeWhile (fun c => !isHostEnd c)).asString

/-- Characters that terminate the path component of a URL. -/
def isPathEnd (c : Char) : Bool :=
  c = '?' || c = '#'

/-- Model of `urllib.parse.urlparse(url).path` for absolute URLs:
everything after the authority and before the query/fragment.
For a URL without a scheme the whole string up to `?`/`#` is the path. -/
def urlPath (url : String) : String :=
  match splitScheme url.toList with
  | none => (url.toList.takeWhile (fun c => !isPathEnd c)).asString
  | some p =>
    (((p.2.dropWhile (fun c => !isHostEnd c)).takeWhile
        (fun c => !isPathEnd c))).asString

/-- The prefix of a character list up to and including its last `'/'`
(empty if there is no `'/'`). -/
def dirOf (l : List Char) : List Char :=
  (l.reverse.dropWhile (fun c => c ≠ '/')).reverse

/-- Model of `urllib.parse.urljoin(base, href)` restricted to the URL shapes
exercised in this development: an href containing `"://"` is absolute and
replaces the base; an href beginning with `/` replaces the base's path; any
other href is resolved against the directory of the base's path (the base's
path up to its last `/`, or `/` when the path is empty).  Hrefs beginning
with `?`, `#` or `..`, and bases without a scheme, are outside the modelled
fragment. -/
def urljoin (base href : String) : String :=
  if strContains href "://" then href
  else
    match splitScheme base.toList with
    | none => href
    | some p =>
      let scheme := p.1
      let host := p.2.takeWhile (fun c => !isHostEnd c)
      let path := (p.2.dropWhile (fun c => !isHostEnd c)).takeWhile
        (fun c => !isPathEnd c)
      let pre := scheme ++ (':' :: '/' :: '/' :: host)
      if strStartsWith href "/" then (pre ++ href.toList).asString
      else
        let dir := if (dirOf path).isEmpty then ['/'] else dirOf path
        (pre ++ dir ++ href.toList).asString

example : netloc "http://a.gov/docs/x.pdf?v=1" = "a.gov" := by decide
example : urlPath "http://a.gov/docs/x.pdf?v=1" = "/docs/x.pdf" := by decide
example : urljoin "http://a.gov/docs/" "report.pdf?v=1"
    = "http://a.gov/docs/report.pdf?v=1" := by decide
example : urljoin "http://a.gov/page" "http://b.gov/x.pdf"
    = "http://b.gov/x.pdf" := by decide
example : urljoin "http://a.gov" "d.pdf" = "http://a.gov/d.pdf" := by decide
example : urljoin "http://a.gov/docs/page.html" "/x/y.pdf"
    = "http://a.gov/x/y.pdf" := by decide
example : strContains "application/pdf;charset=x" "application/pdf" = true := by
  decide
example : strEndsWith "http://a.gov/d.pdf" ".pdf" = true := by decide
example : strEndsWith "http://a.gov/d.pdf?v=2" ".pdf" = false := by decide

/-! ## Crawl orchestration (`PDFSearcher`, source lines 81–152)

The network is an oracle: `head url` is the outcome of
`session.head(url, ...)` — `none` for a raised `requests.RequestException`,
`some (status, contentType)` otherwise; `fetchPage url` is the outcome of
`session.get(url, ...)` followed by `raise_for_status()` and HTML parsing —
`none` for a request error or non-success status, `some hrefs` for the list
of `href` attributes of the page's `<a>` tags.

The state records the mutable data of one `PDFSearcher` (the `cache` visited
set and the shared `pdf_links` result set) together with event logs:
`probes` logs every invocation of `_check_direct_pdf` and `scrapes` every
invocation of `_scrape_page_for_pdfs`, in invocation order.  Thread-pool
execution is modelled as processing the submitted URLs in some sequential
order, which is faithful for these claims because the cache's
check-and-insert is performed under `self.lock` and the logged events do not
depend on interleaving finer than the processing order.  Rate-limiter calls
are timing-only and are modelled separately below. -/

/-- The network oracle seen by the crawler. -/
structure CrawlEnv where
  head : String → Option (Nat × String)
  fetchPage : String → Option (List String)

/-- Mutable state of a `PDFSearcher` plus invocation logs. -/
structure CrawlState where
  cache : List String
  pdfLinks : List String
  probes : List String
  scrapes : List String
deriving DecidableEq

/-- The empty state a fresh `PDFSearcher` starts from (line 86). -/
def initCrawl : CrawlState :=
  ⟨[], [], [], []⟩

/-- `_check_direct_pdf` (lines 122–136): HEAD the URL; on status 200 with a
content type containing `"application/pdf"`, add the URL to the shared
result set (a Python set, so adding is idempotent). -/
def checkDirectPdf (env : CrawlEnv) (url : String) (s : CrawlState) :
    CrawlState :=
  let s := { s with probes := s.probes ++ [url] }
  match env.head url with
  | none => s
  | some r =>
    if r.1 = 200 ∧ strContains r.2 "application/pdf" = true then
      { s with pdfLinks :=
          if url ∈ s.pdfLinks then s.pdfLinks else s.pdfLinks ++ [url] }
    else s

/-- The set comprehension of lines 144–145: resolve each href against the
page URL, keeping exactly those whose *raw* href string ends in `".pdf"`;
`dedup` models the set construction. -/
def extractPdfUrls (base : String) (hrefs : List String) : List String :=
  (((hrefs.filter (fun h => strEndsWith h ".pdf")).map
      (fun h => urljoin base h))).dedup

/-- `_scrape_page_for_pdfs` (lines 138–152): GET the page; on success,
extract the `.pdf`-suffixed hrefs and submit each to `_check_direct_pdf`
(line 149) — note: *not* to `_process_url`, so the cache is not consulted
for extracted links. -/
def scrapePageForPdfs (env : CrawlEnv) (url : String) (s : CrawlState) :
    CrawlState :=
  let s := { s with scrapes := s.scrapes ++ [url] }
  match env.fetchPage url with
  | none => s
  | some hrefs =>
    (extractPdfUrls url hrefs).foldl (fun s v => checkDirectPdf env v s) s

/-- `_process_url` (lines 105–120): atomically check-and-insert into the
visited cache (lines 106–109); if already present, drop the URL; otherwise
route by whether the whole URL string ends in `".pdf"` (line 114). -/
def processUrl (env : CrawlEnv) (url : String) (s : CrawlState) :
    CrawlState :=
  if url ∈ s.cache then s
  else
    let s := { s with cache := s.cache ++ [url] }
    if strEndsWith url ".pdf" then checkDirectPdf env url s
    else scrapePageForPdfs env url s

/-- The crawl of `find_pdf_links` (lines 99–100): every search-result seed
is submitted to `_process_url`. -/
def runCrawl (env : CrawlEnv) (seeds : List String) (s : CrawlState) :
    CrawlState :=
  seeds.foldl (fun s u => processUrl env u s) s

/-- Probe outcomes, following §4.3 of the specification. -/
inductive ProbeOutcome where
  | verified
  | rejected
  | failed
deriving DecidableEq

/-- The outcome of probing a URL, as classified by `_check_direct_pdf`:
`verified` on status 200 with a PDF content type (line 129), `failed` on a
raised request exception (line 134), `rejected` otherwise. -/
def probeOutcome (env : CrawlEnv) (url : String) : ProbeOutcome :=
  match env.head url with
  | none => .failed
  | some r =>
    if r.1 = 200 ∧ strContains r.2 "application/pdf" = true then .verified
    else .rejected

/-! ## Rate limiter (`RateLimiter`, source lines 38–65)

Wall-clock instants are rationals.  One call to `wait` is modelled by
`waitStep cfg s url c l`, where `c` is the value of `current_time` read at
line 47 — *before* the lock is acquired — and `l` is the instant the lock is
acquired at line 49.  Inside the critical section, time advances only by the
two conditional sleeps; both the global append and the domain append of
lines 63–64 are modelled at the instant the sleeps finish.  The
`time.sleep(min_request_delay)` of line 65 happens while the lock is still
held, so the critical section ends `minRequestDelay` later; `endTime`
records that release instant.  `lastC` records the `current_time` used for
the most recent pruning (a ghost variable used only in proofs).

The in-code `global_timestamps` / `domain_timestamps` lists are the pruned
working windows; `ghostGlobal` / `ghostDomain` additionally keep the full
admission log of each partition, which the pruning never touches — the rate
bound of specification §8 is a property of these logs.

Python's `self.global_timestamps[0]` on an empty list raises `IndexError`;
`waitStep` returns `none` there. -/

/-- The three configuration fields that `RateLimiter.wait` reads
(lines 53, 58, 65). -/
structure RLConfig where
  requestsPerSecond : ℚ
  domainRateLimit : ℚ
  minRequestDelay : ℚ

/-- Model of Python's `int()` on a rational: truncation toward zero. -/
def pyInt (q : ℚ) : ℤ :=
  if 0 ≤ q then ⌊q⌋ else -⌊-q⌋

/-- Look a domain up in an association-list map, defaulting to `[]`
(the behaviour of `defaultdict(list)`). -/
def dlookup (m : List (String × List ℚ)) (k : String) : List ℚ :=
  match m with
  | [] => []
  | p :: rest => if p.1 = k then p.2 else dlookup rest k

/-- Write a domain's list in an association-list map. -/
def dupdate (m : List (String × List ℚ)) (k : String) (v : List ℚ) :
    List (String × List ℚ) :=
  match m with
  | [] => [(k, v)]
  | p :: rest => if p.1 = k then (k, v) :: rest else p :: dupdate rest k v

/-- State of one `RateLimiter` plus ghost data. -/
structure RLState where
  globalTs : List ℚ
  domainTs : List (String × List ℚ)
  ghostGlobal : List ℚ
  ghostDomain : List (String × List ℚ)
  endTime : ℚ
  lastC : ℚ
deriving DecidableEq

/-- A fresh `RateLimiter` (lines 39–43), with the run starting at instant 0. -/
def initRL : RLState :=
  ⟨[], [], [], [], 0, 0⟩

/-- The sleep of lines 54–56 (and 59–61): from instant `cur`, sleep
`1.0 - (c - oldest)` seconds if that is positive. -/
def sleepTo (cur c oldest : ℚ) : ℚ :=
  if 0 < 1 - (c - oldest) then cur + (1 - (c - oldest)) else cur

/-- The check-and-sleep of lines 53–56 (and 58–61) for one partition:
if the pruned window `win` has reached the ceiling, sleep until one second
after the window's oldest entry — indexing `win[0]`, which raises
(`none`) when `win` is empty. -/
def partDelay (ceil : ℤ) (win : List ℚ) (c cur : ℚ) : Option ℚ :=
  if ceil ≤ (win.length : ℤ) then
    match win with
    | [] => none
    | t0 :: _ => some (sleepTo cur c t0)
  else some cur

/-- One call to `RateLimiter.wait(url)` (lines 45–65).  `c` is the
`current_time` captured at line 47 and `l` the lock-acquisition instant;
the caller guarantees `c ≤ l` and `s.endTime ≤ l`.  Returns `none` when the
code would raise `IndexError` by indexing an empty window at line 54
or 59. -/
def waitStep (cfg : RLConfig) (s : RLState) (url : String) (c l : ℚ) :
    Option RLState :=
  let dom := netloc url
  let g1 := s.globalTs.filter (fun t => c - t < 1)
  let d1 := (dlookup s.domainTs dom).filter (fun t => c - t < 1)
  match partDelay (pyInt cfg.requestsPerSecond) g1 c l with
  | none => none
  | some cur1 =>
    match partDelay (pyInt cfg.domainRateLimit) d1 c cur1 with
    | none => none
    | some cur2 =>
      some { globalTs := g1 ++ [cur2]
             domainTs := dupdate s.domainTs dom (d1 ++ [cur2])
             ghostGlobal := s.ghostGlobal ++ [cur2]
             ghostDomain :=
               dupdate s.ghostDomain dom (dlookup s.ghostDomain dom ++ [cur2])
             endTime := cur2 + cfg.minRequestDelay
             lastC := c }

/-- Run a sequence of `wait` calls, each given as
`(url, capture instant, lock instant)`. -/
def runRL (cfg : RLConfig) : RLState → List (String × ℚ × ℚ) →
    Option RLState
  | s, [] => some s
  | s, (url, c, l) :: rest =>
    match waitStep cfg s url c l with
    | none => none
    | some s' => runRL cfg s' rest

/-- A trace of calls is *admissible* when each call captures its clock no
later than it acquires the lock, and acquires the lock only after the
previous critical section has been released (the lock serialises the calls);
the trace must also never hit the `IndexError` branch.  Overlap between
calls — a capture happening before an earlier call releases the lock — is
allowed, exactly as for real threads racing for `self.lock`. -/
def validTrace (cfg : RLConfig) : RLState → List (String × ℚ × ℚ) → Bool
  | _, [] => true
  | s, (url, c, l) :: rest =>
    decide (c ≤ l) && decide (s.endTime ≤ l) &&
      match waitStep cfg s url c l with
      | none => false
      | some s' => validTrace cfg s' rest

/-- A trace is *sequential* when additionally each call captures its clock
only after the previous call has released the lock, i.e. the calls do not
overlap at all. -/
def seqTrace (cfg : RLConfig) : RLState → List (String × ℚ × ℚ) → Bool
  | _, [] => true
  | s, (url, c, l) :: rest =>
    decide (c ≤ l) && decide (s.endTime ≤ c) &&
      match waitStep cfg s url c l with
      | none => false
      | some s' => seqTrace cfg s' rest

/-- The number of admissions in `log` lying in the trailing one-second
window `(t - 1, t]`. -/
def windowCount (log : List ℚ) (t : ℚ) : ℕ :=
  (log.filter (fun x => decide (t - 1 < x) && decide (x ≤ t))).length

/-- The ghost global log of a rate-limiter run, `[]` if the run failed. -/
def ghostGlobalOf : Option RLState → List ℚ
  | none => []
  | some s => s.ghostGlobal

/-- The ghost log of domain `dom`, `[]` if the run failed. -/
def ghostDomainOf (o : Option RLState) (dom : String) : List ℚ :=
  match o with
  | none => []
  | some s => dlookup s.ghostDomain dom

/-- Claim C2 as stated: on every admissible trace of `wait` calls — overlap
between concurrent callers included — every partition's full admission log
respects its configured ceiling in every trailing one-second window. -/
def rateBoundHolds (cfg : RLConfig) : Prop :=
  ∀ trace : List (String × ℚ × ℚ), validTrace cfg initRL trace = true →
    (∀ t : ℚ, (windowCount (ghostGlobalOf (runRL cfg initRL trace)) t : ℤ)
        ≤ pyInt cfg.requestsPerSecond) ∧
    (∀ dom : String, ∀ t : ℚ,
      (windowCount (ghostDomainOf (runRL cfg initRL trace) dom) t : ℤ)
        ≤ pyInt cfg.domainRateLimit)

/-! ## Result serialization (`FileHandler.save_results`, lines 154–172)

`save_results` writes CSV rows; the embedding produces the list of rows
(each row a list of cell strings), leaving actual file I/O outside the
model.  Python's `sorted` on strings is lexicographic comparison of Unicode
code points, which is exactly `String`'s order here; `sorted` is modelled by
insertion sort, which produces the same list (the sorted permutation of a
list of strings is unique). -/

/-- Model of Python's `sorted` on a list of strings. -/
def sortStrings (l : List String) : List String :=
  List.insertionSort (fun a b => a ≤ b) l

/-- `FileHandler.save_results` (lines 156–169) as a row-list producer.
`ts` is `time.ctime()`; `results` is the `search_results` dict in insertion
order, each value the (unordered) set of verified links. -/
def saveResultsRows (ts : String) (results : List (String × List String)) :
    List (List String) :=
  let start : List (List String) × ℕ :=
    ([["Search Performed On", ts], [], ["Query", "PDF Link"]], 0)
  let acc := results.foldl
    (fun acc p =>
      (acc.1 ++ (sortStrings p.2).map (fun l => [p.1, l]) ++ [[]],
       acc.2 + p.2.length))
    start
  acc.1 ++ [["Total PDFs Found", toString acc.2]]

/-! ## Query-argument parsing (`SearchApplication._get_queries`, lines 201–212)

`args.queries` is `none` when `-q` was not given and `some values`
otherwise.  `q.split(":", 1)` either finds a colon — yielding the part
before it and everything after it — or raises `ValueError` on unpacking,
which line 211 turns into `sys.exit(1)`; exiting is `Except.error 1`.
The `queries` dict is an insertion-ordered association list; assigning to an
existing key overwrites its value in place. -/

/-- `DEFAULT_QUERIES` (lines 19–23). -/
def DEFAULT_QUERIES : List (String × String) :=
  [("FY 2024 DoD Budget",
    "DoD budget FY 2024 spending cur filetype:pdf site:*.gov -inurl:(signup | login)"),
   ("FY 2025 DoD Budget",
    "DoD budget FY 2025 spending cur filetype:pdf site:*.gov -inurl:(signup | login)"),
   ("FY 2024/2025 DoD Vendor Spending",
    "DoD vendor spending FY 2024 OR FY 2025 cur filetype:pdf site:*.gov -inurl:(signup | login)")]

/-- Split a character list at its first `':'`; `none` if there is none. -/
def splitColon : List Char → Option (List Char × List Char)
  | [] => none
  | c :: rest =>
    if c = ':' then some ([], rest)
    else (splitColon rest).map (fun p => (c :: p.1, p.2))

/-- Model of `q.split(":", 1)` unpacked into two parts: `none` models the
`ValueError` raised when the colon is absent. -/
def splitOnce (q : String) : Option (String × String) :=
  (splitColon q.toList).map (fun p => (p.1.asString, p.2.asString))

/-- Model of Python's `str.strip()` for the ASCII whitespace occurring in
command-line arguments. -/
def strTrim (s : String) : String :=
  (((s.toList.dropWhile Char.isWhitespace).reverse.dropWhile
      Char.isWhitespace).reverse).asString

/-- Assignment `queries[title] = query` on an insertion-ordered dict. -/
def dictInsert (m : List (String × String)) (k v : String) :
    List (String × String) :=
  match m with
  | [] => [(k, v)]
  | p :: rest => if p.1 = k then (k, v) :: rest else p :: dictInsert rest k v

/-- Dict lookup (first — and only — entry with the given key). -/
def qlookup (m : List (String × String)) (k : String) : Option String :=
  match m with
  | [] => none
  | p :: rest => if p.1 = k then some p.2 else qlookup rest k

/-- The loop of lines 205–211. -/
def getQueriesGo : List String → List (String × String) →
    Except ℕ (List (String × String))
  | [], acc => .ok acc
  | q :: rest, acc =>
    match splitOnce q with
    | none => .error 1
    | some p => getQueriesGo rest (dictInsert acc (strTrim p.1) (strTrim p.2))

/-- `_get_queries` (lines 201–212): `if not args.queries` covers both the
absent option (`none`) and an empty list of values. -/
def getQueries : Option (List String) → Except ℕ (List (String × String))
  | none => .ok DEFAULT_QUERIES
  | some [] => .ok DEFAULT_QUERIES
  | some (q :: rest) => getQueriesGo (q :: rest) []

/-- The query text of the *last* well-formed argument whose trimmed title is
`t` (used to state last-write-wins). -/
def lastBody : List String → String → Option String
  | [], _ => none
  | q :: rest, t =>
    match lastBody rest t with
    | some b => some b
    | none =>
      match splitOnce q with
      | none => none
      | some p => if strTrim p.1 = t then some (strTrim p.2) else none

/-! ## Claim statements and concrete instances -/

/-- Claim C1 as stated: on every location encountered during the run —
seed or extracted link alike — probe and page-scrape are together invoked
at most once. -/
def atMostOnce (env : CrawlEnv) (seeds : List String) : Prop :=
  ∀ u : String,
    (runCrawl env seeds initCrawl).probes.count u +
      (runCrawl env seeds initCrawl).scrapes.count u ≤ 1

/-- Claim C6's spec-side extraction, following the specification's words:
resolve every hyperlink target against the page's base address and keep
exactly those whose *resolved path* ends in `".pdf"`. -/
def extractByPath (base : String) (hrefs : List String) : List String :=
  ((hrefs.map (fun h => urljoin base h)).filter
      (fun r => strEndsWith (urlPath r) ".pdf")).dedup

/-- A direct PDF URL used in concrete runs. -/
def urlPdf : String := "http://a.gov/d.pdf"

/-- An HTML page URL used in concrete runs; its page links to `urlPdf`. -/
def urlPage : String := "http://a.gov/page"

/-- Concrete network oracle: `urlPdf` probes as a real PDF, and the page at
`urlPage` contains a single hyperlink to `urlPdf`. -/
def envC1 : CrawlEnv where
  head := fun u => if u = urlPdf then some (200, "application/pdf") else none
  fetchPage := fun u => if u = urlPage then some [urlPdf] else none

/-- A network oracle in which every request fails. -/
def envNone : CrawlEnv where
  head := fun _ => none
  fetchPage := fun _ => none

/-- A direct PDF URL whose *path* ends in `.pdf` but whose full string does
not (it carries a query string). -/
def urlPdfQuery : String := "http://a.gov/doc.pdf?v=2"

/-- Configuration used for the C2 counterexample: global ceiling 1 request
per second, per-domain ceiling 5, no minimum inter-request delay (all are
legal configuration values). -/
def cfgC2 : RLConfig := ⟨1, 5, 0⟩

/-- The violating trace: the third caller reads `current_time = 9/10` while
the second caller holds the lock, then acquires the lock at instant `1`
(just after the second caller's admission at instant `1`).  Its stale prune
keeps the aged admission at instant `0`, so its sleep only reaches
`0 + 1 + 1/10 = 11/10`, and its admission lands while the admission at
instant `1` is still inside the trailing one-second window. -/
def traceC2 : List (String × ℚ × ℚ) :=
  [("http://a.gov/x", 0, 0),
   ("http://a.gov/x", mkRat 9 10, mkRat 9 10),
   ("http://a.gov/x", mkRat 9 10, 1)]

/-- A sequential (non-overlapping) trace used to witness the amended C2. -/
def traceC2seq : List (String × ℚ × ℚ) :=
  [("http://a.gov/x", 0, 0),
   ("http://a.gov/x", mkRat 3 2, mkRat 3 2),
   ("http://a.gov/x", 2, 2)]

/-- Configuration for C4's failing input: `requests_per_second = 0.5` (a
ceiling below 1, which the specification says must be treated as 1), with
the default `domain_rate_limit = 1.0` and `min_request_delay = 0.25`. -/
def cfgC4 : RLConfig := ⟨mkRat 1 2, 1, mkRat 1 4⟩

/-- Invariant of a single rate-limiter partition with ceiling `ceil`:
`working` is the in-code pruned window, `ghost` the full admission log,
`endT` the instant the last critical section was released and `lastC` the
`current_time` used by the last prune.  `recent` states that the prunes so
far have only removed admissions that were at least one second old at
`lastC`; `bound` is the rate bound itself. -/
structure PartInv (ceil : ℤ) (endT lastC : ℚ) (working ghost : List ℚ) :
    Prop where
  sub : working.Sublist ghost
  wle : ∀ x ∈ working, x ≤ endT
  gle : ∀ x ∈ ghost, x ≤ endT
  lcle : lastC ≤ endT
  recent : ∀ t : ℚ, lastC ≤ t →
    (ghost.filter (fun x => t - 1 < x)).length ≤
      (working.filter (fun x => t - 1 < x)).length
  bound : ∀ t : ℚ, (windowCount ghost t : ℤ) ≤ ceil

/-- The rate limiter's full invariant: each partition satisfies `PartInv`
with its own ceiling. -/
def RLInv (cfg : RLConfig) (s : RLState) : Prop :=
  PartInv (pyInt cfg.requestsPerSecond) s.endTime s.lastC
      s.globalTs s.ghostGlobal ∧
    ∀ dom : String,
      PartInv (pyInt cfg.domainRateLimit) s.endTime s.lastC
        (dlookup s.domainTs dom) (dlookup s.ghostDomain dom)

/-- Every collected link was verified by its probe (C3's invariant). -/
def pdfLinksVerified (env : CrawlEnv) (s : CrawlState) : Prop :=
  ∀ u ∈ s.pdfLinks, probeOutcome env u = .verified

/-! ## Theorems -/

/-! ### Crawl bookkeeping lemmas -/

theorem checkDirectPdf_effects (env : CrawlEnv) (u : String) (s : CrawlState) :
    (checkDirectPdf env u s).cache = s.cache ∧
      (checkDirectPdf env u s).scrapes = s.scrapes ∧
      (checkDirectPdf env u s).probes = s.probes ++ [u] := by
  unfold checkDirectPdf
  cases env.head u with
  | none => exact ⟨rfl, rfl, rfl⟩
  | some r =>
    dsimp only
    split
    · exact ⟨rfl, rfl, rfl⟩
    · exact ⟨rfl, rfl, rfl⟩

theorem foldl_check_effects (env : CrawlEnv) (l : List String) :
    ∀ s : CrawlState,
      ((l.foldl (fun s v => checkDirectPdf env v s) s).cache = s.cache ∧
        (l.foldl (fun s v => checkDirectPdf env v s) s).scrapes = s.scrapes ∧
        (l.foldl (fun s v => checkDirectPdf env v s) s).probes
          = s.probes ++ l) := by
  induction l with
  | nil => intro s; simp
  | cons v tl ih =>
    intro s
    obtain ⟨h1, h2, h3⟩ := ih (checkDirectPdf env v s)
    obtain ⟨e1, e2, e3⟩ := checkDirectPdf_effects env v s
    refine ⟨?_, ?_, ?_⟩
    · simpa [e1] using h1
    · simpa [e2] using h2
    · simp only [List.foldl_cons] at *
      rw [h3, e3]
      simp

theorem scrapePage_effects (env : CrawlEnv) (u : String) (s : CrawlState) :
    (scrapePageForPdfs env u s).cache = s.cache ∧
      (scrapePageForPdfs env u s).scrapes = s.scrapes ++ [u] := by
  unfold scrapePageForPdfs
  cases env.fetchPage u with
  | none => exact ⟨rfl, rfl⟩
  | some hrefs =>
    dsimp only
    obtain ⟨h1, h2, _⟩ := foldl_check_effects env (extractPdfUrls u hrefs)
      { s with scrapes := s.scrapes ++ [u] }
    exact ⟨h1, h2⟩

/-- **C10** (confirmed).  If the command line supplies no query pairs —
the queries option absent (`none`) or given an empty list — the run uses
exactly the three built-in default DoD-budget pairs, not zero queries. -/
theorem c10_default_queries :
    getQueries none = .ok DEFAULT_QUERIES ∧
      getQueries (some []) = .ok DEFAULT_QUERIES ∧
      DEFAULT_QUERIES.length = 3 :=
  ⟨rfl, rfl, rfl⟩

/-- **C4** (code bug).  The claim says `wait` never fails, in particular
not for per-second ceilings below 1 (to be treated as 1) and never with an
out-of-bounds access on an empty timestamp list.  With
`requests_per_second = 0.5`, `int()` maps the ceiling to 0, the guard
`len([]) >= 0` holds on the very first call, and line 54 indexes the empty
`global_timestamps` — an `IndexError`, modelled as `none`. -/
theorem c4_wait_index_error :
    waitStep cfgC4 initRL "http://a.gov/x" 0 0 = none := by
  with_unfolding_all decide

theorem processUrl_cache_scrapes (env : CrawlEnv) (u : String)
    (s : CrawlState) (h1 : s.cache.Nodup) (h2 : s.scrapes.Sublist s.cache) :
    (processUrl env u s).cache.Nodup ∧
      (processUrl env u s).scrapes.Sublist (processUrl env u s).cache := by
  unfold processUrl
  split
  · exact ⟨h1, h2⟩
  next hmem =>
    have hnodup : (s.cache ++ [u]).Nodup := by
      rw [List.nodup_append]
      refine ⟨h1, List.nodup_singleton u, ?_⟩
      intro x hx hxu
      rw [List.mem_singleton] at hxu
      exact hmem (hxu ▸ hx)
    split
    · obtain ⟨e1, e2, _⟩ := checkDirectPdf_effects env u
        { s with cache := s.cache ++ [u] }
      rw [e1, e2]
      exact ⟨hnodup, h2.trans (List.sublist_append_left s.cache [u])⟩
    · obtain ⟨e1, e2⟩ := scrapePage_effects env u
        { s with cache := s.cache ++ [u] }
      rw [e1, e2]
      exact ⟨hnodup, h2.append (List.Sublist.refl [u])⟩

theorem runCrawl_cache_scrapes (env : CrawlEnv) (seeds : List String) :
    ∀ s : CrawlState, s.cache.Nodup → s.scrapes.Sublist s.cache →
      (runCrawl env seeds s).cache.Nodup ∧
        (runCrawl env seeds s).scrapes.Sublist (runCrawl env seeds s).cache := by
  induction seeds with
  | nil => intro s h1 h2; exact ⟨h1, h2⟩
  | cons u tl ih =>
    intro s h1 h2
    obtain ⟨h1', h2'⟩ := processUrl_cache_scrapes env u s h1 h2
    exact ih (processUrl env u s) h1' h2'

/-- **C1, amended**.  The visited set does guarantee at-most-once
*dispatch*: each location passes the check-and-insert of lines 106–109 at
most once (the cache stays duplicate-free), and consequently no location is
ever page-scraped twice.  What fails (see the counterexample) is
at-most-once *probing*: links extracted while scraping bypass the visited
set and may be probed again. -/
theorem c1_dispatch_at_most_once (env : CrawlEnv) (seeds : List String) :
    (runCrawl env seeds initCrawl).cache.Nodup ∧
      (runCrawl env seeds initCrawl).scrapes.Nodup := by
  obtain ⟨h1, h2⟩ := runCrawl_cache_scrapes env seeds initCrawl
    List.nodup_nil (List.Sublist.refl [])
  exact ⟨h1, h2.nodup h1⟩

/-- **C1, counterexample**.  The at-most-once property as stated fails: the
seed `urlPdf` is probed once via `_process_url`, and probed a second time as
a link extracted from the page `urlPage`, because extracted links are
submitted straight to `_check_direct_pdf` without consulting the visited
cache. -/
theorem c1_counterexample : ¬ atMostOnce envC1 [urlPdf, urlPage] := by
  intro h
  have h2 := h urlPdf
  revert h2
  decide

theorem processUrl_scrapes_cases (env : CrawlEnv) (u : String)
    (s : CrawlState) :
    ∀ x ∈ (processUrl env u s).scrapes, x = u ∨ x ∈ s.scrapes := by
  unfold processUrl
  split
  · exact fun x hx => .inr hx
  · split
    · intro x hx
      rw [(checkDirectPdf_effects env u _).2.1] at hx
      exact .inr hx
    · intro x hx
      rw [(scrapePage_effects env u _).2] at hx
      rcases List.mem_append.mp hx with h | h
      · exact .inr h
      · exact .inl (List.mem_singleton.mp h)

theorem runCrawl_scrapes_cases (env : CrawlEnv) (seeds : List String) :
    ∀ s : CrawlState, ∀ x ∈ (runCrawl env seeds s).scrapes,
      x ∈ seeds ∨ x ∈ s.scrapes := by
  induction seeds with
  | nil => exact fun s x hx => .inr hx
  | cons u tl ih =>
    intro s x hx
    rcases ih (processUrl env u s) x hx with h | h
    · exact .inl (List.mem_cons_of_mem u h)
    · rcases processUrl_scrapes_cases env u s x h with rfl | h2
      · exact .inl (List.mem_cons_self x tl)
      · exact .inr h2

/-- **C5** (confirmed).  Page scraping is applied only to seed locations:
every URL on which `_scrape_page_for_pdfs` is ever invoked during a run is
one of the seeds submitted by the search collaborator, so a location
discovered by scraping is only ever probed, never itself scraped —
expansion depth is at most 2. -/
theorem c5_scrape_only_seeds (env : CrawlEnv) (seeds : List String)
    (u : String) (h : u ∈ (runCrawl env seeds initCrawl).scrapes) :
    u ∈ seeds := by
  rcases runCrawl_scrapes_cases env seeds initCrawl u h with h2 | h2
  · exact h2
  · exact absurd h2 (List.not_mem_nil u)

/-- Witness for `c5_scrape_only_seeds` at a concrete run. -/
theorem c5_scrape_only_seeds_witness : urlPage ∈ [urlPdf, urlPage] :=
  c5_scrape_only_seeds envC1 [urlPdf, urlPage] urlPage (by decide)

theorem checkDirectPdf_mem_pdfLinks (env : CrawlEnv) (url : String)
    (s : CrawlState) :
    url ∈ (checkDirectPdf env url s).pdfLinks ↔
      probeOutcome env url = .verified ∨ url ∈ s.pdfLinks := by
  unfold checkDirectPdf probeOutcome
  cases env.head url with
  | none => simp
  | some r =>
    dsimp only
    split
    next hc =>
      by_cases hm : url ∈ s.pdfLinks <;> simp [hm]
    next hc =>
      simp

theorem checkDirectPdf_verified (env : CrawlEnv) (v : String)
    (s : CrawlState) (h : pdfLinksVerified env s) :
    pdfLinksVerified env (checkDirectPdf env v s) := by
  intro u hu
  unfold checkDirectPdf at hu
  revert hu
  cases hh : env.head v with
  | none => exact fun hu => h u hu
  | some r =>
    dsimp only
    split
    next hc =>
      intro hu
      by_cases hm : v ∈ s.pdfLinks
      · rw [if_pos hm] at hu
        exact h u hu
      · rw [if_neg hm] at hu
        rcases List.mem_append.mp hu with h2 | h2
        · exact h u h2
        · rw [List.mem_singleton.mp h2]
          unfold probeOutcome
          rw [hh]
          exact if_pos hc
    next hc => exact fun hu => h u hu

theorem foldl_check_verified (env : CrawlEnv) (l : List String) :
    ∀ s : CrawlState, pdfLinksVerified env s →
      pdfLinksVerified env (l.foldl (fun s v => checkDirectPdf env v s) s) := by
  induction l with
  | nil => exact fun s h => h
  | cons v tl ih =>
    exact fun s h => ih (checkDirectPdf env v s) (checkDirectPdf_verified env v s h)

theorem scrapePage_verified (env : CrawlEnv) (u : String) (s : CrawlState)
    (h : pdfLinksVerified env s) :
    pdfLinksVerified env (scrapePageForPdfs env u s) := by
  unfold scrapePageForPdfs
  cases env.fetchPage u with
  | none => exact h
  | some hrefs =>
    dsimp only
    exact foldl_check_verified env (extractPdfUrls u hrefs) _ h

theorem processUrl_verified (env : CrawlEnv) (u : String) (s : CrawlState)
    (h : pdfLinksVerified env s) :
    pdfLinksVerified env (processUrl env u s) := by
  unfold processUrl
  split
  · exact h
  · split
    · exact checkDirectPdf_verified env u _ h
    · exact scrapePage_verified env u _ h

theorem runCrawl_verified (env : CrawlEnv) (seeds : List String) :
    ∀ s : CrawlState, pdfLinksVerified env s →
      pdfLinksVerified env (runCrawl env seeds s) := by
  induction seeds with
  | nil => exact fun s h => h
  | cons u tl ih =>
    exact fun s h => ih (processUrl env u s) (processUrl_verified env u s h)

/-- **C3** (confirmed).  `_check_direct_pdf` adds a URL to the output set
iff its HEAD response had status 200 and a `application/pdf` content type
(i.e. its probe outcome is Verified); and across a whole run, every URL in
the output set has probe outcome Verified — no Rejected or Failed location
is ever emitted. -/
theorem c3_verified_iff :
    (∀ (env : CrawlEnv) (url : String) (s : CrawlState),
        url ∈ (checkDirectPdf env url s).pdfLinks ↔
          probeOutcome env url = .verified ∨ url ∈ s.pdfLinks) ∧
      ∀ (env : CrawlEnv) (seeds : List String) (u : String),
        u ∈ (runCrawl env seeds initCrawl).pdfLinks →
          probeOutcome env u = .verified := by
  refine ⟨checkDirectPdf_mem_pdfLinks, fun env seeds u hu => ?_⟩
  refine runCrawl_verified env seeds initCrawl ?_ u hu
  intro x hx
  exact absurd hx (List.not_mem_nil x)

/-- Witness for `c3_verified_iff` at a concrete run. -/
theorem c3_verified_iff_witness : probeOutcome envC1 urlPdf = .verified :=
  c3_verified_iff.2 envC1 [urlPdf] urlPdf (by decide)

/-- **C2, counterexample**.  The rate bound as stated fails on an
admissible concurrent trace: with a global ceiling of 1 admission/second,
the trace `traceC2` puts two admissions (instants `1` and `11/10`) inside
the trailing window `(1/10, 11/10]`, because the third caller pruned and
computed its sleep with a `current_time` captured before it blocked on the
lock. -/
theorem c2_counterexample : ¬ rateBoundHolds cfgC2 := by
  intro h
  have h2 := (h traceC2 (by with_unfolding_all decide)).1 (mkRat 11 10)
  revert h2
  with_unfolding_all decide

/-- **C6, counterexample**.  A hyperlink whose *resolved path* ends in
`.pdf` is omitted by the code: the href `report.pdf?v=1` fails the raw
`endswith(".pdf")` test of line 145, although its resolution against the
page base has path `/docs/report.pdf`.  The spec-side extraction keeps it. -/
theorem c6_counterexample :
    extractPdfUrls "http://a.gov/docs/" ["report.pdf?v=1"] = [] ∧
      strEndsWith
        (urlPath (urljoin "http://a.gov/docs/" "report.pdf?v=1")) ".pdf"
        = true ∧
      extractByPath "http://a.gov/docs/" ["report.pdf?v=1"]
        = ["http://a.gov/docs/report.pdf?v=1"] := by
  decide

/-- **C7, counterexample**.  Routing is not a function of the path: the URL
`http://a.gov/doc.pdf?v=2` has a path ending in `.pdf`, so the claim says
it is probed directly, yet line 114 tests the whole URL string, routes it
to the page scraper, and never probes it. -/
theorem c7_counterexample :
    strEndsWith (urlPath urlPdfQuery) ".pdf" = true ∧
      (processUrl envNone urlPdfQuery initCrawl).scrapes = [urlPdfQuery] ∧
      (processUrl envNone urlPdfQuery initCrawl).probes = [] := by
  decide

/-- **C6, amended**.  On a successfully fetched page, the scrape operation
collects exactly those hyperlink targets whose *raw* href string ends in
`".pdf"`, each resolved against the page's address after that test — and
each collected link is submitted to the probe.  (As the counterexample
shows, filtering by the raw href is not the same as filtering by the
resolved path that the claim describes.) -/
theorem c6_raw_suffix_extraction :
    (∀ (base : String) (hrefs : List String) (r : String),
        r ∈ extractPdfUrls base hrefs ↔
          ∃ h, h ∈ hrefs ∧ strEndsWith h ".pdf" = true ∧ r = urljoin base h) ∧
      ∀ (env : CrawlEnv) (url : String) (s : CrawlState)
        (hrefs : List String),
        env.fetchPage url = some hrefs →
          (scrapePageForPdfs env url s).probes
            = s.probes ++ extractPdfUrls url hrefs := by
  constructor
  · intro base hrefs r
    unfold extractPdfUrls
    rw [List.mem_dedup, List.mem_map]
    constructor
    · rintro ⟨h, hh, rfl⟩
      rw [List.mem_filter] at hh
      exact ⟨h, hh.1, hh.2, rfl⟩
    · rintro ⟨h, hh, hpdf, rfl⟩
      exact ⟨h, List.mem_filter.mpr ⟨hh, hpdf⟩, rfl⟩
  · intro env url s hrefs hf
    unfold scrapePageForPdfs
    rw [hf]
    exact (foldl_check_effects env (extractPdfUrls url hrefs) _).2.2

/-- Witness for `c6_raw_suffix_extraction` at concrete inputs. -/
theorem c6_raw_suffix_extraction_witness :
    urlPdf ∈ extractPdfUrls urlPage [urlPdf] :=
  (c6_raw_suffix_extraction.1 urlPage [urlPdf] urlPdf).mpr
    ⟨urlPdf, by decide, by decide, by decide⟩

/-- **C7, amended**.  For a successfully claimed candidate, routing is a
function of the *whole URL string*: the candidate is probed directly iff
the full URL ends in `".pdf"` (query strings and fragments included in the
test), and otherwise it is routed to the page scraper. -/
theorem c7_route_by_suffix (env : CrawlEnv) (u : String) (s : CrawlState)
    (h : u ∉ s.cache) :
    (strEndsWith u ".pdf" = true →
        (processUrl env u s).probes = s.probes ++ [u] ∧
          (processUrl env u s).scrapes = s.scrapes) ∧
      (strEndsWith u ".pdf" = false →
        (processUrl env u s).scrapes = s.scrapes ++ [u]) := by
  constructor
  · intro hE
    unfold processUrl
    rw [if_neg h, if_pos hE]
    exact ⟨(checkDirectPdf_effects env u _).2.2,
      (checkDirectPdf_effects env u _).2.1⟩
  · intro hE
    unfold processUrl
    rw [if_neg h, if_neg (by simp [hE])]
    exact (scrapePage_effects env u _).2

/-- Witness for `c7_route_by_suffix` at a concrete input. -/
theorem c7_route_by_suffix_witness :
    (processUrl envC1 urlPdf initCrawl).probes
        = initCrawl.probes ++ [urlPdf] ∧
      (processUrl envC1 urlPdf initCrawl).scrapes = initCrawl.scrapes :=
  (c7_route_by_suffix envC1 urlPdf initCrawl (by decide)).1 (by decide)

theorem saveRows_foldl (rs : List (String × List String)) :
    ∀ (rows0 : List (List String)) (n0 : ℕ),
      rs.foldl
          (fun acc p =>
            (acc.1 ++ (sortStrings p.2).map (fun l => [p.1, l]) ++ [[]],
             acc.2 + p.2.length))
          (rows0, n0)
        = (rows0
              ++ rs.flatMap
                (fun p => (sortStrings p.2).map (fun l => [p.1, l]) ++ [[]]),
           n0 + (rs.map (fun p => p.2.length)).sum) := by
  induction rs with
  | nil => intro rows0 n0; simp
  | cons p tl ih =>
    intro rows0 n0
    simp only [List.foldl_cons]
    rw [ih]
    simp [Nat.add_assoc]

/-- **C8** (confirmed).  Serialization of a `ResultSet` produces exactly:
the timestamp header row, a blank row, the `Query, PDF Link` header, then
one block per query — one row per verified location, the locations sorted
lexicographically (a sorted permutation of the query's link list) followed
by a blank separator row — and a final row whose count is the sum of the
verified-document counts over all queries. -/
theorem c8_serialization (ts : String) (rs : List (String × List String)) :
    saveResultsRows ts rs =
        [["Search Performed On", ts], [], ["Query", "PDF Link"]]
            ++ rs.flatMap
              (fun p => (sortStrings p.2).map (fun l => [p.1, l]) ++ [[]])
            ++ [["Total PDFs Found",
                  toString ((rs.map (fun p => p.2.length)).sum)]]
      ∧ ∀ l : List String,
          List.Sorted (fun a b => a ≤ b) (sortStrings l) ∧
            (sortStrings l).Perm l := by
  constructor
  · unfold saveResultsRows
    dsimp only
    rw [saveRows_foldl]
    simp
  · intro l
    exact ⟨List.sorted_insertionSort _ l, List.perm_insertionSort _ l⟩

/-- **C9, counterexample**.  Not every well-formed pair is included in the
query map: with arguments `A:x` and `A:y`, the well-formed pair
`("A", "x")` is overwritten by the later pair with the same title. -/
theorem c9_counterexample :
    getQueries (some ["A:x", "A:y"]) = .ok [("A", "y")] ∧
      ("A", "x") ∉ [("A", "y")] :=
  ⟨rfl, by decide⟩

theorem getQueriesGo_error (qs : List String) :
    ∀ (acc : List (String × String)) (q : String), q ∈ qs →
      splitOnce q = none → getQueriesGo qs acc = .error 1 := by
  induction qs with
  | nil => intro acc q h; exact absurd h (List.not_mem_nil q)
  | cons q0 tl ih =>
    intro acc q hq hnone
    unfold getQueriesGo
    rcases List.mem_cons.mp hq with rfl | hmem
    · rw [hnone]
    · cases h0 : splitOnce q0 with
      | none => rfl
      | some p => exact ih _ q hmem hnone

theorem qlookup_dictInsert (m : List (String × String)) (k v t : String) :
    qlookup (dictInsert m k v) t =
      if k = t then some v else qlookup m t := by
  induction m with
  | nil =>
    unfold dictInsert qlookup
    rfl
  | cons p rest ih =>
    unfold dictInsert
    by_cases hp : p.1 = k
    · rw [if_pos hp]
      unfold qlookup
      by_cases hk : k = t
      · rw [if_pos hk, if_pos hk]
      · rw [if_neg hk, if_neg hk, if_neg (hp ▸ hk : ¬p.1 = t)]
    · rw [if_neg hp]
      unfold qlookup
      by_cases ht : p.1 = t
      · have hk : ¬k = t := fun h => hp (h ▸ ht ▸ rfl : p.1 = k)
        rw [if_pos ht, if_neg hk, if_pos ht]
      · rw [if_neg ht, if_neg ht, ih]

theorem getQueriesGo_ok (qs : List String) :
    ∀ acc : List (String × String),
      (∀ q ∈ qs, (splitOnce q).isSome = true) →
      ∃ m, getQueriesGo qs acc = .ok m ∧
        ∀ t, qlookup m t =
          match lastBody qs t with
          | some b => some b
          | none => qlookup acc t := by
  induction qs with
  | nil => intro acc _; exact ⟨acc, rfl, fun t => rfl⟩
  | cons q0 tl ih =>
    intro acc hall
    obtain ⟨p, hp⟩ :=
      Option.isSome_iff_exists.mp (hall q0 (List.mem_cons_self q0 tl))
    obtain ⟨m, hm, hl⟩ := ih (dictInsert acc (strTrim p.1) (strTrim p.2))
      (fun q hq => hall q (List.mem_cons_of_mem _ hq))
    refine ⟨m, ?_, ?_⟩
    · unfold getQueriesGo
      rw [hp]
      exact hm
    · intro t
      rw [hl t]
      have heq : lastBody (q0 :: tl) t =
          match lastBody tl t with
          | some b => some b
          | none =>
            match splitOnce q0 with
            | none => none
            | some p =>
              if strTrim p.1 = t then some (strTrim p.2) else none := rfl
      rw [heq, hp]
      cases hlb : lastBody tl t with
      | some b => rfl
      | none =>
        rw [qlookup_dictInsert]
        dsimp only
        by_cases hc : strTrim p.1 = t
        · rw [if_pos hc, if_pos hc]
        · rw [if_neg hc, if_neg hc]

/-- **C9, amended**.  A malformed argument (no colon) anywhere on the
command line makes parsing report error and exit with status 1 before any
work; when every argument is well-formed, parsing succeeds and the query
map binds each trimmed title to the query text of the *last* argument
carrying that title (last-write-wins; a pair whose title recurs later is
overwritten, which is the one deviation from the claim as stated).  The
empty argument list is excluded here: it falls back to the defaults
(claim C10). -/
theorem c9_query_parsing :
    (∀ (qs : List String) (q : String), q ∈ qs → splitOnce q = none →
        getQueries (some qs) = .error 1) ∧
      ∀ qs : List String, qs ≠ [] →
        (∀ q ∈ qs, (splitOnce q).isSome = true) →
        ∃ m, getQueries (some qs) = .ok m ∧
          ∀ t, qlookup m t = lastBody qs t := by
  constructor
  · intro qs q hq hn
    cases qs with
    | nil => exact absurd hq (List.not_mem_nil q)
    | cons q0 tl => exact getQueriesGo_error (q0 :: tl) [] q hq hn
  · intro qs hne hall
    cases qs with
    | nil => exact absurd rfl hne
    | cons q0 tl =>
      obtain ⟨m, hm, hl⟩ := getQueriesGo_ok (q0 :: tl) [] hall
      refine ⟨m, hm, fun t => ?_⟩
      rw [hl t]
      cases lastBody (q0 :: tl) t <;> rfl

/-! ### Rate-limiter lemmas -/

theorem decide_window (c x : ℚ) : decide (c - x < 1) = decide (c - 1 < x) := by
  by_cases h : c - 1 < x
  · rw [decide_eq_true h, decide_eq_true (show c - x < 1 by linarith)]
  · rw [decide_eq_false h,
      decide_eq_false (show ¬c - x < 1 from fun hh => h (by linarith))]

theorem windowCount_append (log : List ℚ) (a t : ℚ) :
    windowCount (log ++ [a]) t =
      windowCount log t + (if t - 1 < a ∧ a ≤ t then 1 else 0) := by
  unfold windowCount
  rw [List.filter_append, List.length_append]
  by_cases h1 : t - 1 < a <;> by_cases h2 : a ≤ t <;>
    simp [List.filter_cons, h1, h2]

theorem windowCount_le_filter (log : List ℚ) (t : ℚ) :
    windowCount log t ≤ (log.filter (fun x => decide (t - 1 < x))).length := by
  unfold windowCount
  have h : log.filter (fun x => decide (t - 1 < x) && decide (x ≤ t))
      = List.filter (fun x => decide (x ≤ t))
          (log.filter (fun x => decide (t - 1 < x))) := by
    rw [List.filter_filter]
    exact List.filter_congr (fun x _ => Bool.and_comm _ _)
  rw [h]
  exact List.length_filter_le _ _

theorem filter_prune_absorb (l : List ℚ) (c t : ℚ) (hct : c ≤ t) :
    (l.filter (fun x => decide (c - x < 1))).filter
        (fun x => decide (t - 1 < x))
      = l.filter (fun x => decide (t - 1 < x)) := by
  rw [List.filter_filter]
  refine List.filter_congr (fun x _ => ?_)
  rw [decide_window]
  by_cases h : t - 1 < x
  · have hcx : c - 1 < x := by linarith
    simp [h, hcx]
  · simp [h]

theorem dlookup_dupdate_self (m : List (String × List ℚ)) (k : String)
    (v : List ℚ) : dlookup (dupdate m k v) k = v := by
  induction m with
  | nil =>
    unfold dupdate dlookup
    rw [if_pos rfl]
  | cons p rest ih =>
    unfold dupdate
    by_cases h : p.1 = k
    · rw [if_pos h]
      unfold dlookup
      rw [if_pos rfl]
    · rw [if_neg h]
      unfold dlookup
      rw [if_neg h]
      exact ih

theorem dlookup_dupdate_ne (m : List (String × List ℚ)) (k k' : String)
    (v : List ℚ) (h : k' ≠ k) :
    dlookup (dupdate m k v) k' = dlookup m k' := by
  induction m with
  | nil =>
    unfold dupdate dlookup
    rw [if_neg (fun hh : k = k' => h hh.symm)]
    rfl
  | cons p rest ih =>
    unfold dupdate
    by_cases hp : p.1 = k
    · rw [if_pos hp]
      unfold dlookup
      rw [if_neg (fun hh : k = k' => h hh.symm), if_neg (hp ▸ fun hh => h hh.symm)]
    · rw [if_neg hp]
      unfold dlookup
      by_cases hp' : p.1 = k'
      · rw [if_pos hp', if_pos hp']
      · rw [if_neg hp', if_neg hp']
        exact ih

theorem partDelay_ok (ceil : ℤ) (win : List ℚ) (c cur : ℚ)
    (hceil : 1 ≤ ceil) (hwin : ∀ x ∈ win, c - 1 < x) (hcur : c ≤ cur) :
    ∃ cur', partDelay ceil win c cur = some cur' ∧ cur ≤ cur' ∧
      (ceil ≤ (win.length : ℤ) →
        ∃ t0 tl, win = t0 :: tl ∧ t0 + 1 ≤ cur') := by
  unfold partDelay
  by_cases hguard : ceil ≤ (win.length : ℤ)
  · rw [if_pos hguard]
    cases win with
    | nil => simp at hguard; omega
    | cons t0 tl =>
      have ht0 : c - 1 < t0 := hwin t0 (List.mem_cons_self t0 tl)
      have hpos : 0 < 1 - (c - t0) := by linarith
      refine ⟨sleepTo cur c t0, rfl, ?_, fun _ => ⟨t0, tl, rfl, ?_⟩⟩
      · unfold sleepTo
        rw [if_pos hpos]
        linarith
      · unfold sleepTo
        rw [if_pos hpos]
        linarith
  · rw [if_neg hguard]
    exact ⟨cur, rfl, le_refl cur, fun h => absurd h hguard⟩

theorem partInv_step {ceil : ℤ} {endT lastC c l ta δ : ℚ}
    {working ghost : List ℚ}
    (inv : PartInv ceil endT lastC working ghost)
    (hcl : c ≤ l) (hec : endT ≤ c) (hlta : l ≤ ta) (hδ : 0 ≤ δ)
    (hsleep :
      ceil ≤ ((working.filter (fun x => decide (c - x < 1))).length : ℤ) →
      ∃ t0 tl, working.filter (fun x => decide (c - x < 1)) = t0 :: tl ∧
        t0 + 1 ≤ ta) :
    PartInv ceil (ta + δ) c
      (working.filter (fun x => decide (c - x < 1)) ++ [ta])
      (ghost ++ [ta]) := by
  have hcta : c ≤ ta := le_trans hcl hlta
  have hlcc : lastC ≤ c := le_trans inv.lcle hec
  have hg1len :
      ((working.filter (fun x => decide (c - x < 1))).length : ℤ) ≤ ceil := by
    have e1 : working.filter (fun x => decide (c - x < 1))
        = working.filter (fun x => decide (c - 1 < x)) :=
      List.filter_congr (fun x _ => decide_window c x)
    have e2 : working.filter (fun x => decide (c - 1 < x))
        = working.filter (fun x => decide (c - 1 < x) && decide (x ≤ c)) :=
      List.filter_congr (fun x hx => by
        have hxc : x ≤ c := le_trans (inv.wle x hx) hec
        rw [decide_eq_true hxc, Bool.and_true])
    have e3 : (working.filter
          (fun x => decide (c - 1 < x) && decide (x ≤ c))).length
        ≤ (ghost.filter
            (fun x => decide (c - 1 < x) && decide (x ≤ c))).length :=
      (inv.sub.filter _).length_le
    have e4 := inv.bound c
    have e5 : windowCount ghost c
        = (ghost.filter
            (fun x => decide (c - 1 < x) && decide (x ≤ c))).length := rfl
    rw [e1, e2]
    rw [e5] at e4
    exact le_trans (by exact_mod_cast e3) e4
  have boundN : ∀ t : ℚ, (windowCount (ghost ++ [ta]) t : ℤ) ≤ ceil := by
    intro t
    rw [windowCount_append]
    by_cases hin : t - 1 < ta ∧ ta ≤ t
    · rw [if_pos hin]
      have hct : c ≤ t := le_trans hcta hin.2
      have s1 : windowCount ghost t
          ≤ (ghost.filter (fun x => decide (t - 1 < x))).length :=
        windowCount_le_filter ghost t
      have s2 : (ghost.filter (fun x => decide (t - 1 < x))).length
          ≤ (working.filter (fun x => decide (t - 1 < x))).length :=
        inv.recent t (le_trans hlcc hct)
      have s3 : ((working.filter (fun x => decide (c - x < 1))).filter
            (fun x => decide (t - 1 < x))).length
          = (working.filter (fun x => decide (t - 1 < x))).length := by
        rw [filter_prune_absorb working c t hct]
      by_cases hguard :
          ceil ≤ ((working.filter (fun x => decide (c - x < 1))).length : ℤ)
      · obtain ⟨t0, tl, heq, ht0⟩ := hsleep hguard
        have hns : ¬t - 1 < t0 := by
          have := hin.2
          intro hh
          linarith
        have s4 : ((working.filter (fun x => decide (c - x < 1))).filter
              (fun x => decide (t - 1 < x))).length ≤ tl.length := by
          rw [heq]
          have hdrop : List.filter (fun x => decide (t - 1 < x)) (t0 :: tl)
              = List.filter (fun x => decide (t - 1 < x)) tl := by
            simp [List.filter_cons, hns]
          rw [hdrop]
          exact List.length_filter_le _ tl
        have s5 : (working.filter (fun x => decide (c - x < 1))).length
            = tl.length + 1 := by
          rw [heq]
          exact List.length_cons t0 tl
        rw [s5] at hg1len
        omega
      · push_neg at hguard
        have s4 : ((working.filter (fun x => decide (c - x < 1))).filter
              (fun x => decide (t - 1 < x))).length
            ≤ (working.filter (fun x => decide (c - x < 1))).length :=
          List.length_filter_le _ _
        omega
    · rw [if_neg hin]
      have := inv.bound t
      omega
  have recentN : ∀ t : ℚ, c ≤ t →
      ((ghost ++ [ta]).filter (fun x => decide (t - 1 < x))).length
        ≤ ((working.filter (fun x => decide (c - x < 1)) ++ [ta]).filter
            (fun x => decide (t - 1 < x))).length := by
    intro t hct
    rw [List.filter_append, List.filter_append, List.length_append,
      List.length_append]
    have s2 := inv.recent t (le_trans hlcc hct)
    have s3 := filter_prune_absorb working c t hct
    rw [s3]
    omega
  refine { sub := ?_, wle := ?_, gle := ?_, lcle := by linarith,
           recent := recentN, bound := boundN }
  · exact ((List.filter_sublist working).trans inv.sub).append
      (List.Sublist.refl [ta])
  · intro x hx
    rcases List.mem_append.mp hx with h | h
    · have hxw : x ∈ working := List.mem_of_mem_filter h
      have := inv.wle x hxw
      linarith
    · rw [List.mem_singleton.mp h]
      linarith
  · intro x hx
    rcases List.mem_append.mp hx with h | h
    · have := inv.gle x h
      linarith
    · rw [List.mem_singleton.mp h]
      linarith

theorem partInv_keep {ceil : ℤ} {endT lastC c ta δ : ℚ}
    {working ghost : List ℚ}
    (inv : PartInv ceil endT lastC working ghost)
    (hec : endT ≤ c) (hcta : c ≤ ta) (hδ : 0 ≤ δ) :
    PartInv ceil (ta + δ) c working ghost := by
  refine { sub := inv.sub, wle := ?_, gle := ?_, lcle := by linarith,
           recent := ?_, bound := inv.bound }
  · intro x hx
    have := inv.wle x hx
    linarith
  · intro x hx
    have := inv.gle x hx
    linarith
  · intro t hct
    exact inv.recent t (le_trans (le_trans inv.lcle hec) hct)

theorem waitStep_inv (cfg : RLConfig) (s : RLState) (url : String) (c l : ℚ)
    (hg : 1 ≤ pyInt cfg.requestsPerSecond)
    (hd : 1 ≤ pyInt cfg.domainRateLimit)
    (hδ : 0 ≤ cfg.minRequestDelay) (inv : RLInv cfg s)
    (hcl : c ≤ l) (hec : s.endTime ≤ c) :
    ∃ s', waitStep cfg s url c l = some s' ∧ RLInv cfg s' := by
  obtain ⟨invG, invD⟩ := inv
  have hwinG : ∀ x ∈ s.globalTs.filter (fun t => decide (c - t < 1)),
      c - 1 < x := by
    intro x hx
    have h1 : c - x < 1 := of_decide_eq_true (List.mem_filter.mp hx).2
    linarith
  have hwinD : ∀ x ∈ (dlookup s.domainTs (netloc url)).filter
      (fun t => decide (c - t < 1)), c - 1 < x := by
    intro x hx
    have h1 : c - x < 1 := of_decide_eq_true (List.mem_filter.mp hx).2
    linarith
  obtain ⟨cur1, he1, hcur1, hs1⟩ :=
    partDelay_ok (pyInt cfg.requestsPerSecond)
      (s.globalTs.filter (fun t => decide (c - t < 1))) c l hg hwinG hcl
  obtain ⟨cur2, he2, hcur2, hs2⟩ :=
    partDelay_ok (pyInt cfg.domainRateLimit)
      ((dlookup s.domainTs (netloc url)).filter
        (fun t => decide (c - t < 1))) c cur1 hd hwinD
      (le_trans hcl hcur1)
  refine ⟨{ globalTs := s.globalTs.filter (fun t => decide (c - t < 1)) ++ [cur2]
            domainTs := dupdate s.domainTs (netloc url)
              ((dlookup s.domainTs (netloc url)).filter
                (fun t => decide (c - t < 1)) ++ [cur2])
            ghostGlobal := s.ghostGlobal ++ [cur2]
            ghostDomain := dupdate s.ghostDomain (netloc url)
              (dlookup s.ghostDomain (netloc url) ++ [cur2])
            endTime := cur2 + cfg.minRequestDelay
            lastC := c }, ?_, ?_, ?_⟩
  · unfold waitStep
    dsimp only
    rw [he1]
    dsimp only
    rw [he2]
  · exact partInv_step invG hcl hec (le_trans hcur1 hcur2) hδ
      (fun hguard => by
        obtain ⟨t0, tl, heq, ht0⟩ := hs1 hguard
        exact ⟨t0, tl, heq, le_trans ht0 hcur2⟩)
  · intro dom'
    by_cases hdom : dom' = netloc url
    · subst hdom
      rw [dlookup_dupdate_self, dlookup_dupdate_self]
      exact partInv_step (invD (netloc url)) hcl hec
        (le_trans hcur1 hcur2) hδ hs2
    · rw [dlookup_dupdate_ne _ _ _ _ hdom, dlookup_dupdate_ne _ _ _ _ hdom]
      exact partInv_keep (invD dom') hec
        (le_trans hcl (le_trans hcur1 hcur2)) hδ

theorem RLInv_init (cfg : RLConfig)
    (hg : 1 ≤ pyInt cfg.requestsPerSecond)
    (hd : 1 ≤ pyInt cfg.domainRateLimit) : RLInv cfg initRL := by
  have base : ∀ ceil : ℤ, 1 ≤ ceil →
      PartInv ceil (0 : ℚ) (0 : ℚ) ([] : List ℚ) ([] : List ℚ) := by
    intro ceil hceil
    refine { sub := List.Sublist.refl [], wle := ?_, gle := ?_,
             lcle := le_refl 0, recent := ?_, bound := ?_ }
    · intro x hx
      exact absurd hx (List.not_mem_nil x)
    · intro x hx
      exact absurd hx (List.not_mem_nil x)
    · intro t _
      exact le_refl 0
    · intro t
      have : windowCount ([] : List ℚ) t = 0 := rfl
      rw [this]
      omega
  exact ⟨base _ hg, fun dom => base _ hd⟩

theorem runRL_inv (cfg : RLConfig)
    (hg : 1 ≤ pyInt cfg.requestsPerSecond)
    (hd : 1 ≤ pyInt cfg.domainRateLimit)
    (hδ : 0 ≤ cfg.minRequestDelay) :
    ∀ (trace : List (String × ℚ × ℚ)) (s : RLState), RLInv cfg s →
      seqTrace cfg s trace = true →
      ∃ s', runRL cfg s trace = some s' ∧ RLInv cfg s' := by
  intro trace
  induction trace with
  | nil => exact fun s inv _ => ⟨s, rfl, inv⟩
  | cons call rest ih =>
    intro s inv hseq
    obtain ⟨url, c, l⟩ := call
    unfold seqTrace at hseq
    rw [Bool.and_eq_true, Bool.and_eq_true] at hseq
    obtain ⟨⟨hcl, hec⟩, hrest⟩ := hseq
    rw [decide_eq_true_eq] at hcl hec
    obtain ⟨s1, he, inv1⟩ := waitStep_inv cfg s url c l hg hd hδ
      ⟨inv.1, inv.2⟩ hcl hec
    rw [he] at hrest
    obtain ⟨s', he', inv'⟩ := ih s1 inv1 hrest
    refine ⟨s', ?_, inv'⟩
    unfold runRL
    rw [he]
    exact he'

/-- **C2, amended**.  The rate bound does hold for *non-overlapping* calls:
on any sequential admissible trace — each call reading its clock only after
the previous call has released the lock — every partition's full admission
log stays within its configured ceiling (taken as at least 1, with a
non-negative minimum inter-request delay) in every trailing one-second
window.  Under concurrent overlap the bound can be exceeded by the stale
clock read (see the counterexample). -/
theorem c2_sequential_rate_bound (cfg : RLConfig)
    (trace : List (String × ℚ × ℚ))
    (hg : 1 ≤ pyInt cfg.requestsPerSecond)
    (hd : 1 ≤ pyInt cfg.domainRateLimit)
    (hδ : 0 ≤ cfg.minRequestDelay)
    (hseq : seqTrace cfg initRL trace = true) :
    (∀ t : ℚ, (windowCount (ghostGlobalOf (runRL cfg initRL trace)) t : ℤ)
        ≤ pyInt cfg.requestsPerSecond) ∧
      ∀ (dom : String) (t : ℚ),
        (windowCount (ghostDomainOf (runRL cfg initRL trace) dom) t : ℤ)
          ≤ pyInt cfg.domainRateLimit := by
  obtain ⟨s', he, inv⟩ := runRL_inv cfg hg hd hδ trace initRL
    (RLInv_init cfg hg hd) hseq
  rw [he]
  exact ⟨fun t => inv.1.bound t, fun dom t => (inv.2 dom).bound t⟩

/-- Witness for `c2_sequential_rate_bound` on a concrete sequential trace. -/
theorem c2_sequential_rate_bound_witness :
    (windowCount (ghostGlobalOf (runRL cfgC2 initRL traceC2seq)) 1 : ℤ)
      ≤ pyInt cfgC2.requestsPerSecond :=
  (c2_sequential_rate_bound cfgC2 traceC2seq (by decide) (by decide)
    (by decide) (by with_unfolding_all decide)).1 1

/-- Witness for `c9_query_parsing` at concrete command lines. -/
theorem c9_query_parsing_witness :
    getQueries (some ["bad"]) = .error 1 ∧
      qlookup [("A", "y")] "A" = lastBody ["A:x", "A:y"] "A" := by
  constructor
  · exact c9_query_parsing.1 ["bad"] "bad" (by decide) (by decide)
  · obtain ⟨m, hm, hl⟩ :=
      c9_query_parsing.2 ["A:x", "A:y"] (by decide) (by decide)
    have hcomp : getQueries (some ["A:x", "A:y"]) = .ok [("A", "y")] := rfl
    rw [hm] at hcomp
    injection hcomp with h
    subst h
    exact hl "A"

end DodSpend
